import Mathlib

/-!
# Verification of the Metamorphic Architecture transformation core and dashboard utilities

This development shallowly embeds the repository's code:

* `Dashboard` — the React dashboard's `telemetryUtils.js` functions, embedded
  over an explicit model of JavaScript values (numbers as rationals, `NaN` as
  `none`, objects as association lists in insertion order).
* `Orchestrator` — the transformation orchestration core (Topology Store,
  Plan Store, Plan Executor, Step Coordinator, Health Verifier).  The core's
  implementation is not among the repository's source files (only its
  Dockerfiles, requirement lists and dashboard callers are), so these
  definitions are modelled from the specification, as indicated by their doc
  comments.
-/

namespace Dashboard

/-- A JavaScript number, modelled as a rational; `none` stands for `NaN`.
(Double-precision rounding is not modelled; no verified property depends on
float precision.) -/
abbrev JSNum := Option ℚ

/-- A JavaScript primitive value as it occurs in the telemetry records:
either a (finite) number or a string. -/
inductive JSVal where
  | num (q : ℚ)
  | str (s : String)
  deriving DecidableEq, Repr

/-- A JavaScript input as received by the telemetry utilities: `null`,
`undefined`, some other non-array value (object, number, string, …), or an
array of elements.  The guards in `telemetryUtils.js`
(`!data || !Array.isArray(data) || data.length === 0`) distinguish exactly
these shapes. -/
inductive JSInput (α : Type) where
  | null
  | undefined
  | nonArrayValue
  | arr (xs : List α)
  deriving DecidableEq, Repr

/-- JavaScript `x || 0` on a possibly-`NaN` number: `NaN` and `0` are falsy. -/
def jsNumOrZero (x : JSNum) : ℚ :=
  match x with
  | none => 0
  | some q => q

/-- Digits of a character list interpreted as a base-10 natural number,
together with the count of digits consumed. -/
def readDigits : List Char → ℕ → ℕ → ℕ × ℕ × List Char
  | [], acc, cnt => (acc, cnt, [])
  | c :: rest, acc, cnt =>
    if c.isDigit then readDigits rest (acc * 10 + (c.toNat - 48)) (cnt + 1)
    else (acc, cnt, c :: rest)

/-- JavaScript `parseFloat` on a string, modelled for decimal literals:
optional sign, integer digits, optional fractional digits.  Leading
whitespace is skipped; trailing garbage is ignored; a string with no leading
digits parses to `NaN` (`none`).  (`Infinity` literals and exponents are not
modelled; no telemetry value uses them.) -/
def parseFloatStr (s : String) : JSNum :=
  let chars := s.toList.dropWhile (fun c => c = ' ' ∨ c = '\t' ∨ c = '\n')
  let (sign, rest) :=
    match chars with
    | '-' :: r => ((-1 : ℚ), r)
    | '+' :: r => ((1 : ℚ), r)
    | r => ((1 : ℚ), r)
  let (ipart, icnt, rest2) := readDigits rest 0 0
  match rest2 with
  | '.' :: r =>
    let (fpart, fcnt, _) := readDigits r 0 0
    if icnt = 0 ∧ fcnt = 0 then none
    else some (sign * ((ipart : ℚ) + (fpart : ℚ) / ((10 : ℚ) ^ fcnt)))
  | _ =>
    if icnt = 0 then none
    else some (sign * (ipart : ℚ))

/-- JavaScript `parseFloat` applied to a `JSVal` (a number is coerced to a
string and re-parsed, which is the identity on finite numbers). -/
def parseFloatVal : JSVal → JSNum
  | JSVal.num q => some q
  | JSVal.str s => parseFloatStr s

/-- Render a natural number left-padded with zeros to the given width
(JavaScript `String(n).padStart(w, "0")`). -/
def padNat (w : ℕ) (n : ℕ) : String :=
  let s := toString n
  if s.length ≥ w then s
  else String.mk (List.replicate (w - s.length) '0') ++ s

/-- JavaScript `Number.prototype.toFixed(dp)` on a finite rational: round to
`dp` decimal places (half away from zero) and render with exactly `dp`
digits after the point. -/
def toFixed (dp : ℕ) (q : ℚ) : String :=
  let scaled : ℚ := q * ((10 : ℚ) ^ dp)
  let r : ℤ := if q ≥ 0 then ⌊scaled + 1/2⌋ else -⌊-scaled + 1/2⌋
  let a : ℕ := r.natAbs
  let ip : ℕ := a / 10 ^ dp
  let fp : ℕ := a % 10 ^ dp
  let sgn := if r < 0 then "-" else ""
  if dp = 0 then sgn ++ toString ip
  else sgn ++ toString ip ++ "." ++ padNat dp fp

/-- `toFixed` on a possibly-`NaN` number (`NaN.toFixed(dp) = "NaN"`). -/
def toFixedNum (dp : ℕ) (x : JSNum) : String :=
  match x with
  | none => "NaN"
  | some q => toFixed dp q

/-- Seconds-since-epoch of a JS `Date` built from `timestamp * 1000`
milliseconds: `getTime() / 1000` after truncation to integral
milliseconds. -/
def dateSeconds (ts : ℚ) : ℚ := ((⌊ts * 1000⌋ : ℚ)) / 1000

/-- `Date.prototype.getHours` modelled in UTC: hour-of-day of the instant
`ts` seconds since the epoch. -/
def dateGetHours (ts : ℚ) : ℤ := (⌊ts / 3600⌋) % 24

/-- `Date.prototype.getMinutes` modelled in UTC. -/
def dateGetMinutes (ts : ℚ) : ℤ := (⌊ts / 60⌋) % 60

/-- `Date.prototype.getSeconds` modelled in UTC. -/
def dateGetSeconds (ts : ℚ) : ℤ := (⌊ts⌋) % 60

/-- Civil date (year, month 1–12, day 1–31) from days since 1970-01-01,
by the standard Gregorian-calendar conversion. -/
def civilFromDays (z0 : ℤ) : ℤ × ℤ × ℤ :=
  let z := z0 + 719468
  let era := (if z ≥ 0 then z else z - 146096) / 146097
  let doe := z - era * 146097
  let yoe := (doe - doe / 1460 + doe / 36524 - doe / 146096) / 365
  let y := yoe + era * 400
  let doy := doe - (365 * yoe + yoe / 4 - yoe / 100)
  let mp := (5 * doy + 2) / 153
  let d := doy - (153 * mp + 2) / 5 + 1
  let m := mp + (if mp < 10 then 3 else -9)
  (y + (if m ≤ 2 then 1 else 0), m, d)

/-- `Date.prototype.getFullYear` modelled in UTC. -/
def dateGetFullYear (ts : ℚ) : ℤ := (civilFromDays ⌊ts / 86400⌋).1

/-- `Date.prototype.getMonth` modelled in UTC (0-based, as in JS). -/
def dateGetMonth (ts : ℚ) : ℤ := (civilFromDays ⌊ts / 86400⌋).2.1 - 1

/-- `Date.prototype.getDate` modelled in UTC (day of month, 1-based). -/
def dateGetDate (ts : ℚ) : ℤ := (civilFromDays ⌊ts / 86400⌋).2.2

/-- `Date.prototype.toLocaleTimeString` modelled as `H:MM:SS` in UTC (the
exact locale rendering is irrelevant to every verified property). -/
def dateToLocaleTimeString (ts : ℚ) : String :=
  s!"{dateGetHours ts}:{padNat 2 (dateGetMinutes ts).toNat}:{padNat 2 (dateGetSeconds ts).toNat}"

end Dashboard

namespace Dashboard

/-- A raw telemetry point as delivered by the API
(`src/dashboard/src/utils/telemetryUtils.js`).  Fields the code reads
through a guard (`|| 0`, `?.`) are optional; `none` is a missing
(`undefined`) field. -/
structure TelemetryPoint where
  timestamp : ℚ
  cpu_usage : Option ℚ
  memory_usage : Option ℚ
  latency : Option ℚ
  request_count : Option ℚ
  error_rate : Option ℚ
  error_count : Option ℚ
  additional_metrics : Option String
  deriving DecidableEq, Repr

/-- Output record of `processTelemetryData`. -/
structure ChartPoint where
  timestamp : String
  rawTimestamp : ℚ
  cpuUsage : String
  memoryUsage : String
  latency : JSVal
  requestCount : ℚ
  errorRate : String
  additionalMetrics : Option String
  deriving DecidableEq, Repr

/-- `x * c` on a possibly-`NaN` number (`undefined * c` is `NaN`). -/
def jsMul (x : JSNum) (c : ℚ) : JSNum := x.map (fun q => q * c)

/-- `processTelemetryData(data, timeFormat)`: formats each raw point for
chart display.  Missing guarded fields become `0`; missing unguarded fields
propagate `NaN` into the rendered string, exactly as in the source. -/
def processTelemetryData (data : JSInput TelemetryPoint) (timeFormat : String) :
    List ChartPoint :=
  match data with
  | JSInput.arr xs =>
    if xs.isEmpty then [] else
    xs.map (fun point =>
      let t := dateSeconds point.timestamp
      let formattedTime :=
        if timeFormat = "hour" then s!"{dateGetHours t}:00"
        else if timeFormat = "second" then dateToLocaleTimeString t
        else s!"{dateGetHours t}:{padNat 2 (dateGetMinutes t).toNat}"
      { timestamp := formattedTime
        rawTimestamp := point.timestamp
        cpuUsage := toFixedNum 1 (jsMul point.cpu_usage 100)
        memoryUsage := toFixedNum 1 (jsMul point.memory_usage 100)
        latency :=
          match point.latency with
          | some l => JSVal.str (toFixed 1 l)
          | none => JSVal.num 0
        requestCount := jsNumOrZero point.request_count
        errorRate := toFixedNum 2 (jsMul point.error_rate 100)
        additionalMetrics := point.additional_metrics })
  | _ => []

/-- An aggregation bucket of `aggregateTelemetryData`. -/
structure AggBucket where
  timestamp : ℚ
  formattedTime : String
  cpuPoints : List JSNum
  memoryPoints : List JSNum
  latencyPoints : List JSNum
  requestCount : ℚ
  errorCount : ℚ
  deriving DecidableEq, Repr

/-- Output record of `aggregateTelemetryData`. -/
structure AggPoint where
  timestamp : String
  rawTimestamp : ℚ
  cpuUsage : String
  memoryUsage : String
  latency : String
  requestCount : ℚ
  errorRate : String
  deriving DecidableEq, Repr

/-- The bucket key that `aggregateTelemetryData` builds from a point's
timestamp for the given interval. -/
def bucketKeyOf (interval : String) (t : ℚ) : String :=
  if interval = "hour" then
    s!"{dateGetFullYear t}-{dateGetMonth t}-{dateGetDate t}-{dateGetHours t}"
  else if interval = "day" then
    s!"{dateGetFullYear t}-{dateGetMonth t}-{dateGetDate t}"
  else
    s!"{dateGetFullYear t}-{dateGetMonth t}-{dateGetDate t}-{dateGetHours t}-{dateGetMinutes t}"

/-- Helper `formatTimestamp(timestamp, interval)` of `telemetryUtils.js`
(`toLocaleDateString` is modelled as `Y-M-D`). -/
def formatTimestamp (t : ℚ) (interval : String) : String :=
  if interval = "hour" then s!"{dateGetHours t}:00"
  else if interval = "day" then s!"{dateGetFullYear t}-{dateGetMonth t}-{dateGetDate t}"
  else s!"{dateGetHours t}:{padNat 2 (dateGetMinutes t).toNat}"

/-- Update the bucket stored under `key`, keeping JS object key insertion
order (new keys are appended). -/
def updateAssoc (m : List (String × AggBucket)) (key : String)
    (f : AggBucket → AggBucket) (init : AggBucket) : List (String × AggBucket) :=
  match m with
  | [] => [(key, f init)]
  | (k, b) :: rest =>
    if k = key then (k, f b) :: rest else (k, b) :: updateAssoc rest key f init

/-- Helper `averageArray(arr)` of `telemetryUtils.js`: mean of an array of
JS numbers, `NaN` entries contributing `0` (`parseFloat(val) || 0`); the
empty array averages to `0`. -/
def averageArray (arr : List JSNum) : ℚ :=
  if arr.isEmpty then 0
  else (arr.foldl (fun sum val => sum + jsNumOrZero val) 0) / (arr.length : ℚ)

/-- One `data.forEach` iteration of `aggregateTelemetryData`. -/
def aggStep (interval : String) (m : List (String × AggBucket))
    (point : TelemetryPoint) : List (String × AggBucket) :=
  let t := dateSeconds point.timestamp
  let key := bucketKeyOf interval t
  let init : AggBucket :=
    { timestamp := t
      formattedTime := formatTimestamp t interval
      cpuPoints := []
      memoryPoints := []
      latencyPoints := []
      requestCount := 0
      errorCount := 0 }
  updateAssoc m key (fun b =>
    { b with
      cpuPoints := b.cpuPoints ++ [some (jsNumOrZero point.cpu_usage)]
      memoryPoints := b.memoryPoints ++ [some (jsNumOrZero point.memory_usage)]
      latencyPoints := b.latencyPoints ++ [some (jsNumOrZero point.latency)]
      requestCount := b.requestCount + jsNumOrZero point.request_count
      errorCount := b.errorCount + jsNumOrZero point.error_count }) init

/-- `aggregateTelemetryData(data, interval)`: group points into time
buckets, average each bucket, and sort by raw timestamp. -/
def aggregateTelemetryData (data : JSInput TelemetryPoint) (interval : String) :
    List AggPoint :=
  match data with
  | JSInput.arr xs =>
    if xs.isEmpty then [] else
    let aggregated := xs.foldl (aggStep interval) []
    (aggregated.map (fun (kb : String × AggBucket) =>
      let bucket := kb.2
      ({ timestamp := bucket.formattedTime,
         rawTimestamp := bucket.timestamp,
         cpuUsage := toFixed 1 (averageArray bucket.cpuPoints * 100),
         memoryUsage := toFixed 1 (averageArray bucket.memoryPoints * 100),
         latency := toFixed 1 (averageArray bucket.latencyPoints),
         requestCount := bucket.requestCount,
         errorRate :=
           if bucket.requestCount > 0 then
             toFixed 2 (bucket.errorCount / bucket.requestCount * 100)
           else "0.00" } : AggPoint))).mergeSort
      (fun a b => decide (a.rawTimestamp ≤ b.rawTimestamp))
  | _ => []

end Dashboard

namespace Dashboard

/-- A JavaScript object as an association list in key insertion order (a JS
object has no duplicate keys). -/
abbrev JSObject := List (String × JSVal)

/-- JavaScript `item[k] || 0` on an object field: a missing field, the
number `0` and the empty string are falsy and yield the number `0`. -/
def jsFieldOrZero (v : Option JSVal) : JSVal :=
  match v with
  | none => JSVal.num 0
  | some (JSVal.num q) => if q = 0 then JSVal.num 0 else JSVal.num q
  | some (JSVal.str s) => if s = "" then JSVal.num 0 else JSVal.str s

/-- JavaScript spread update `{...obj, [k]: v}`: an existing key keeps its
position and is overwritten; a new key is appended. -/
def setField : JSObject → String → JSVal → JSObject
  | [], k, v => [(k, v)]
  | (k0, v0) :: rest, k, v =>
    if k0 = k then (k0, v) :: rest else (k0, v0) :: setField rest k v

/-- The loop body of `calculateMovingAverage` for index `i`: average of the
centred window `data.slice(windowStart, windowEnd + 1)` of the original
array, each entry read as `parseFloat(item[metric] || 0)`.
`Math.max(0, i - ⌊w/2⌋)` is natural subtraction here. -/
def movingAverageAt (xs : List JSObject) (metric : String) (windowSize : ℕ)
    (i : ℕ) : ℚ :=
  let windowStart := i - windowSize / 2
  let windowEnd := min (xs.length - 1) (i + windowSize / 2)
  let window := (xs.drop windowStart).take (windowEnd + 1 - windowStart)
  let values := window.map (fun it => parseFloatVal (jsFieldOrZero (it.lookup metric)))
  averageArray values

/-- `calculateMovingAverage(data, metric, windowSize)`: each element is
rebuilt as `{...element, [metric + "MA"]: average.toFixed(2)}` with the
average of `movingAverageAt` for its index. -/
def calculateMovingAverage (data : JSInput JSObject) (metric : String)
    (windowSize : ℕ) : List JSObject :=
  match data with
  | JSInput.arr xs =>
    if xs.isEmpty then [] else
    xs.mapIdx (fun i item =>
      setField item (metric ++ "MA")
        (JSVal.str (toFixed 2 (movingAverageAt xs metric windowSize i))))
  | _ => []

/-- A raw span of a transaction trace. -/
structure Span where
  service_id : String
  latency : Option ℚ
  timestamp : ℚ
  deriving DecidableEq, Repr

/-- A raw transaction trace. -/
structure Trace where
  transaction_id : String
  spans : List Span
  deriving DecidableEq, Repr

/-- Output span record of `processTransactionTraces`. -/
structure ProcessedSpan where
  service_id : String
  latency : JSVal
  start_time : String
  timestamp : ℚ
  deriving DecidableEq, Repr

/-- Output trace record of `processTransactionTraces`. -/
structure ProcessedTrace where
  transaction_id : String
  services : List String
  total_latency : ℚ
  start_time : ℚ
  end_time : ℚ
  spans : List ProcessedSpan
  span_count : ℕ
  deriving DecidableEq, Repr

/-- `Array.from(new Set(xs))`: distinct entries in first-occurrence order. -/
def setInsertionOrder (seen : List String) : List String → List String
  | [] => []
  | x :: rest =>
    if x ∈ seen then setInsertionOrder seen rest
    else x :: setInsertionOrder (x :: seen) rest

/-- `Math.min(...xs)` over a spread list (the empty case, `Infinity`, is
collapsed to `0`; no trace in any verified property has empty spans). -/
def mathMinList : List ℚ → ℚ
  | [] => 0
  | x :: rest => rest.foldl min x

/-- `Math.max(...xs)` over a spread list (empty case as in `mathMinList`). -/
def mathMaxList : List ℚ → ℚ
  | [] => 0
  | x :: rest => rest.foldl max x

/-- `processTransactionTraces(traces)`: per trace, the involved services,
total and span-wise latencies, start/end times, spans sorted by timestamp;
the result is sorted most-recent-first. -/
def processTransactionTraces (traces : JSInput Trace) : List ProcessedTrace :=
  match traces with
  | JSInput.arr xs =>
    if xs.isEmpty then [] else
    (xs.map (fun trace =>
      let services := setInsertionOrder [] (trace.spans.map (fun span => span.service_id))
      let totalLatency :=
        trace.spans.foldl (fun sum span => sum + jsNumOrZero span.latency) 0
      let startTime := mathMinList (trace.spans.map (fun span => span.timestamp))
      let endTime :=
        mathMaxList (trace.spans.map (fun span =>
          span.timestamp + jsNumOrZero (jsMul span.latency (1/1000))))
      let processedSpans :=
        (trace.spans.mergeSort (fun a b => decide (a.timestamp ≤ b.timestamp))).map
          (fun span =>
            ({ service_id := span.service_id,
               latency :=
                 match span.latency with
                 | some l => JSVal.str (toFixed 1 l)
                 | none => JSVal.num 0,
               start_time := dateToLocaleTimeString (dateSeconds span.timestamp),
               timestamp := span.timestamp } : ProcessedSpan))
      ({ transaction_id := trace.transaction_id,
         services := services,
         total_latency := totalLatency,
         start_time := startTime,
         end_time := endTime,
         spans := processedSpans,
         span_count := trace.spans.length } : ProcessedTrace))).mergeSort
      (fun a b => decide (b.start_time ≤ a.start_time))
  | _ => []

end Dashboard

namespace Orchestrator

/-- Modelled from the spec: §3's identifier sorts (`ServiceID`, `RoutePattern`,
`StepID`, `PlanID`); the orchestration core implementation is not among the
repository's source files. -/
abbrev ServiceID := String

abbrev RoutePattern := String

abbrev StepID := String

abbrev PlanID := String

/-- Modelled from the spec: `ServiceDescriptor.status ∈ {active, draining,
retired}` (§3). -/
inductive ServiceStatus where
  | active
  | draining
  | retired
  deriving DecidableEq, Repr

/-- Modelled from the spec: `resource_allocation: {cpu, memory}` (§3). -/
structure ResourceAllocation where
  cpu : ℕ
  memory : ℕ
  deriving DecidableEq, Repr

/-- Modelled from the spec: `ServiceDescriptor` (§3). -/
structure ServiceDescriptor where
  id : ServiceID
  status : ServiceStatus
  capabilities : List String
  resource_allocation : ResourceAllocation
  dependencies : List ServiceID
  deriving DecidableEq, Repr

/-- Pointwise update of a string-keyed map. -/
def update {β : Type} (m : String → β) (k : String) (v : β) : String → β :=
  fun x => if x = k then v else m x

/-- Modelled from the spec: the `services` and `routing` content of a
`TopologySnapshot` (§3), without the version number. -/
structure TopologyContent where
  services : ServiceID → Option ServiceDescriptor
  routing : RoutePattern → Option ServiceID

/-- Modelled from the spec: a published `TopologySnapshot` (§3) — version
number plus content. -/
structure TopologySnapshot where
  version : ℕ
  content : TopologyContent

/-- Modelled from the spec: one topology mutation of §4.3, a closed tagged
variant with the parameters each forward action needs.  For `split`,
`assign` is the saved capability partition's routing choice (which target
each route that pointed at the source is rewritten to). -/
inductive StepAction where
  | create (svc : ServiceDescriptor)
  | retire (target : ServiceID)
  | scale (target : ServiceID) (alloc : ResourceAllocation)
  | reroute (pats : List RoutePattern) (newTarget : ServiceID)
  | merge (src1 src2 : ServiceID) (merged : ServiceDescriptor)
  | split (src : ServiceID) (targets : List ServiceDescriptor) (assign : RoutePattern → ServiceID)

/-- Modelled from the spec: the state a Step Coordinator saves before
mutating, used by the compensating action (§4.3: "saved descriptors",
"saved before mutation"). -/
inductive SavedState where
  | forCreate (id : ServiceID)
  | forRetire (d : Option ServiceDescriptor)
  | forScale (target : ServiceID) (prior : Option ResourceAllocation)
  | forReroute (pats : List RoutePattern) (savedRouting : RoutePattern → Option ServiceID)
  | forMerge (src1 src2 : ServiceID) (d1 d2 : Option ServiceDescriptor)
      (mergedID : ServiceID) (savedRouting : RoutePattern → Option ServiceID)
  | forSplit (src : ServiceID) (d : Option ServiceDescriptor)
      (targetIDs : List ServiceID) (savedRouting : RoutePattern → Option ServiceID)

/-- Modelled from the spec: what the coordinator records before applying a
step's forward action. -/
def savedOf (a : StepAction) (c : TopologyContent) : SavedState :=
  match a with
  | StepAction.create svc => SavedState.forCreate svc.id
  | StepAction.retire target => SavedState.forRetire (c.services target)
  | StepAction.scale target _ =>
    SavedState.forScale target ((c.services target).map ServiceDescriptor.resource_allocation)
  | StepAction.reroute pats _ => SavedState.forReroute pats c.routing
  | StepAction.merge s1 s2 merged =>
    SavedState.forMerge s1 s2 (c.services s1) (c.services s2) merged.id c.routing
  | StepAction.split src targets _ =>
    SavedState.forSplit src (c.services src) (targets.map ServiceDescriptor.id) c.routing

/-- Modelled from the spec: the forward actions of §4.3's table, as content
transformations of the Topology Store.  `retire` drains and deregisters
(removes) the service; `merge` retires both sources, registers the merged
service and rewrites routes that pointed at either source; `split`
registers the targets, rewrites routes that pointed at the source and
retires the source. -/
def forwardAction (a : StepAction) (c : TopologyContent) : TopologyContent :=
  match a with
  | StepAction.create svc =>
    { c with services := update c.services svc.id (some svc) }
  | StepAction.retire target =>
    { c with services := update c.services target none }
  | StepAction.scale target alloc =>
    { c with services :=
        match c.services target with
        | some d => update c.services target (some { d with resource_allocation := alloc })
        | none => c.services }
  | StepAction.reroute pats newTarget =>
    { c with routing := fun r => if r ∈ pats then some newTarget else c.routing r }
  | StepAction.merge s1 s2 merged =>
    { services := update (update (update c.services s1 none) s2 none) merged.id (some merged)
      routing := fun r =>
        match c.routing r with
        | some s => if s = s1 ∨ s = s2 then some merged.id else some s
        | none => none }
  | StepAction.split src targets assign =>
    { services :=
        update (targets.foldl (fun m t => update m t.id (some t)) c.services) src none
      routing := fun r =>
        if c.routing r = some src then some (assign r) else c.routing r }

/-- Modelled from the spec: the compensations of §4.3's table, applied to
the post-forward content using the coordinator's saved state.  A saved
state that does not match the action leaves the content unchanged (the
coordinator only ever pairs an action with its own record). -/
def compensateAction (a : StepAction) (s : SavedState) (c : TopologyContent) :
    TopologyContent :=
  match a, s with
  | StepAction.create _, SavedState.forCreate createdID =>
    { c with services := update c.services createdID none }
  | StepAction.retire target, SavedState.forRetire d =>
    { c with services := update c.services target d }
  | StepAction.scale target _, SavedState.forScale _ prior =>
    { c with services :=
        match c.services target, prior with
        | some d, some pa => update c.services target (some { d with resource_allocation := pa })
        | _, _ => c.services }
  | StepAction.reroute _ _, SavedState.forReroute pats savedRouting =>
    { c with routing := fun r => if r ∈ pats then savedRouting r else c.routing r }
  | StepAction.merge s1 s2 _, SavedState.forMerge _ _ d1 d2 mergedID savedRouting =>
    { services := update (update (update c.services mergedID none) s1 d1) s2 d2
      routing := savedRouting }
  | StepAction.split src _ _, SavedState.forSplit _ d targetIDs savedRouting =>
    { services :=
        update (targetIDs.foldl (fun m t => update m t none) c.services) src d
      routing := savedRouting }
  | _, _ => c

/-- Modelled from the spec: the preconditions under which a step's forward
action is meaningful (targets exist, new identifiers are fresh; §4.1
validates targets, §4.3 stands up fresh services). -/
def Precond (a : StepAction) (c : TopologyContent) : Prop :=
  match a with
  | StepAction.create svc => c.services svc.id = none
  | StepAction.retire target => (c.services target).isSome
  | StepAction.scale target _ => (c.services target).isSome
  | StepAction.reroute _ _ => True
  | StepAction.merge s1 s2 merged =>
    s1 ≠ s2 ∧ (c.services s1).isSome ∧ (c.services s2).isSome ∧
      c.services merged.id = none
  | StepAction.split src targets _ =>
    (c.services src).isSome ∧ (targets.map ServiceDescriptor.id).Nodup ∧
      (∀ t ∈ targets, c.services t.id = none) ∧
      (∀ t ∈ targets, t.id ≠ src)

end Orchestrator

namespace Orchestrator

/-- Modelled from the spec: the Topology Store holding the single current
snapshot (§5: read-many/write-one with CAS). -/
structure TopologyStore where
  current : TopologySnapshot

/-- Modelled from the spec: a mutation proposal carrying the version the
writer read (§5: "a writer reads version N, proposes N+1"). -/
structure MutationProposal where
  baseVersion : ℕ
  content : TopologyContent

/-- Result of a compare-and-swap commit on the Topology Store. -/
inductive CasResult where
  | accepted (store : TopologyStore)
  | rejected

/-- Modelled from the spec: the single-writer compare-and-swap commit (§5):
the write is accepted only if the store is still at the version the writer
read, and then publishes `version + 1`. -/
def commitMutation (store : TopologyStore) (p : MutationProposal) : CasResult :=
  if p.baseVersion = store.current.version then
    CasResult.accepted
      ⟨{ version := store.current.version + 1, content := p.content }⟩
  else CasResult.rejected

/-- Modelled from the spec: a sequence of writers attempting commits in
order; a rejected writer leaves the store untouched (it must retry with
fresh state). -/
def applyProposals (store : TopologyStore) : List MutationProposal → TopologyStore
  | [] => store
  | p :: rest =>
    match commitMutation store p with
    | CasResult.accepted store2 => applyProposals store2 rest
    | CasResult.rejected => applyProposals store rest

/-- Modelled from the spec: `TransformationPlan.status` (§3). -/
inductive PlanStatus where
  | Draft
  | Ready
  | Executing
  | Completed
  | Failed
  | RolledBack
  | FailedNeedsManualRecovery
  deriving DecidableEq, Repr

/-- Modelled from the spec: the plan state machine's legal edges,
Draft→Ready→Executing→{Completed, Failed→RolledBack|FailedNeedsManualRecovery}
(§3, §8). -/
def validTransition : PlanStatus → PlanStatus → Bool
  | PlanStatus.Draft, PlanStatus.Ready => true
  | PlanStatus.Ready, PlanStatus.Executing => true
  | PlanStatus.Executing, PlanStatus.Completed => true
  | PlanStatus.Executing, PlanStatus.Failed => true
  | PlanStatus.Failed, PlanStatus.RolledBack => true
  | PlanStatus.Failed, PlanStatus.FailedNeedsManualRecovery => true
  | _, _ => false

/-- Modelled from the spec: a plan's current status together with its
audit trail of statuses (§4.1: `recordTransition` appends an audit
entry). -/
structure PlanRecord where
  status : PlanStatus
  audit : List PlanStatus
  deriving DecidableEq, Repr

/-- A freshly created plan: `Draft`, with the audit trail holding the
creation entry. -/
def freshPlanRecord : PlanRecord :=
  { status := PlanStatus.Draft, audit := [PlanStatus.Draft] }

/-- Modelled from the spec: `recordTransition(planID, newStatus)` appends an
audit entry; transitions are validated against the state machine — illegal
transitions are rejected, not silently applied (§4.1). -/
def recordTransition (r : PlanRecord) (newStatus : PlanStatus) :
    Except String PlanRecord :=
  if validTransition r.status newStatus then
    Except.ok { status := newStatus, audit := r.audit ++ [newStatus] }
  else
    Except.error "IllegalTransition"

/-- The plan records reachable from creation through accepted
`recordTransition` calls. -/
inductive RecordReach : PlanRecord → Prop where
  | init : RecordReach freshPlanRecord
  | step (r r2 : PlanRecord) (s : PlanStatus) :
      RecordReach r → recordTransition r s = Except.ok r2 → RecordReach r2

/-- Modelled from the spec: the Plan Store's shared state for execution
mutual exclusion — each plan's status and `target_services`, and the
per-service lock table (§4.1, §5). -/
structure OrchState where
  plans : PlanID → Option (PlanStatus × List ServiceID)
  locks : ServiceID → Option PlanID

/-- The initial orchestrator state: no plans, no locks. -/
def initialOrchState : OrchState :=
  { plans := fun _ => none, locks := fun _ => none }

/-- Result of `executePlan` (§6: `executePlan(id) → {accepted|ConflictError}`;
a plan that is missing or not `Ready` is not executable). -/
inductive ExecuteResult where
  | accepted (st : OrchState)
  | conflictError
  | notExecutable

/-- Modelled from the spec: `acquireExecutionLock` fails with
`ConflictError` if any target service is already locked by another plan
(§4.1); this is the conflict test `executePlan` performs. -/
def lockConflict (st : OrchState) (pid : PlanID) (targets : List ServiceID) : Bool :=
  targets.any (fun s =>
    match st.locks s with
    | some q => q ≠ pid
    | none => false)

/-- Modelled from the spec: `executePlan` drives a `Ready` plan to
`Executing` after acquiring exclusive locks over the union of its
`target_services`; it returns `ConflictError` when any target is locked by
another plan (§4.1, §6, Scenario D). -/
def executePlan (st : OrchState) (pid : PlanID) : ExecuteResult :=
  match st.plans pid with
  | some (PlanStatus.Ready, targets) =>
    if lockConflict st pid targets then ExecuteResult.conflictError
    else
      ExecuteResult.accepted
        { plans := update st.plans pid (some (PlanStatus.Executing, targets))
          locks := targets.foldl (fun L s => update L s (some pid)) st.locks }
  | _ => ExecuteResult.notExecutable

/-- Modelled from the spec: a plan reaching a status that ends its hold on
execution locks; `releaseExecutionLock` is idempotent (§4.1). -/
def finishPlan (st : OrchState) (pid : PlanID) (final : PlanStatus)
    (targets : List ServiceID) : OrchState :=
  { plans := update st.plans pid (some (final, targets))
    locks := fun s => if st.locks s = some pid then none else st.locks s }

/-- Modelled from the spec: the Plan Store's observable transitions —
creating a plan, validating it to `Ready`, `executePlan`, and the
terminal/rollback moves of §4.2 (locks are held from `Executing` until the
plan leaves `Failed`, and released at `Completed`, `RolledBack` and
`FailedNeedsManualRecovery`). -/
inductive OrchStep : OrchState → OrchState → Prop where
  | create (st : OrchState) (pid : PlanID) (targets : List ServiceID) :
      st.plans pid = none →
      OrchStep st { st with plans := update st.plans pid (some (PlanStatus.Draft, targets)) }
  | validate (st : OrchState) (pid : PlanID) (targets : List ServiceID) :
      st.plans pid = some (PlanStatus.Draft, targets) →
      OrchStep st { st with plans := update st.plans pid (some (PlanStatus.Ready, targets)) }
  | execute (st st2 : OrchState) (pid : PlanID) :
      executePlan st pid = ExecuteResult.accepted st2 →
      OrchStep st st2
  | complete (st : OrchState) (pid : PlanID) (targets : List ServiceID) :
      st.plans pid = some (PlanStatus.Executing, targets) →
      OrchStep st (finishPlan st pid PlanStatus.Completed targets)
  | fail (st : OrchState) (pid : PlanID) (targets : List ServiceID) :
      st.plans pid = some (PlanStatus.Executing, targets) →
      OrchStep st { st with plans := update st.plans pid (some (PlanStatus.Failed, targets)) }
  | rollBack (st : OrchState) (pid : PlanID) (targets : List ServiceID) :
      st.plans pid = some (PlanStatus.Failed, targets) →
      OrchStep st (finishPlan st pid PlanStatus.RolledBack targets)
  | manualRecovery (st : OrchState) (pid : PlanID) (targets : List ServiceID) :
      st.plans pid = some (PlanStatus.Failed, targets) →
      OrchStep st (finishPlan st pid PlanStatus.FailedNeedsManualRecovery targets)

/-- Orchestrator states reachable from the initial state. -/
inductive OrchReach : OrchState → Prop where
  | init : OrchReach initialOrchState
  | step (st st2 : OrchState) : OrchReach st → OrchStep st st2 → OrchReach st2

end Orchestrator

namespace Orchestrator

/-- Modelled from the spec: `TransformationStep.status` (§3). -/
inductive StepStatus where
  | Pending
  | Running
  | Verifying
  | Committed
  | Failed
  | Compensated
  deriving DecidableEq, Repr

/-- Modelled from the spec: the scheduling-relevant part of a
`TransformationStep` — its identifier and `depends_on` set (§3). -/
structure StepDef where
  id : StepID
  depends_on : List StepID
  deriving DecidableEq, Repr

/-- Modelled from the spec: the Plan Executor's per-plan step transitions
(§4.2, §4.3).  A step starts only when every dependency is `Committed` and
scheduling has not been halted by a failure; a failure halts scheduling and
enters rollback; rollback compensates committed steps in strict reverse
completion order, so a step is compensated only when no step depending on
it is still in flight or committed. -/
inductive ExecStep (steps : List StepDef) :
    (StepID → StepStatus) → Bool → (StepID → StepStatus) → Bool → Prop where
  | start (f : StepID → StepStatus) (s : StepDef) :
      s ∈ steps → f s.id = StepStatus.Pending →
      (∀ d ∈ s.depends_on, f d = StepStatus.Committed) →
      ExecStep steps f false (update f s.id StepStatus.Running) false
  | verify (f : StepID → StepStatus) (rb : Bool) (s : StepDef) :
      s ∈ steps → f s.id = StepStatus.Running →
      ExecStep steps f rb (update f s.id StepStatus.Verifying) rb
  | commit (f : StepID → StepStatus) (rb : Bool) (s : StepDef) :
      s ∈ steps → f s.id = StepStatus.Verifying →
      ExecStep steps f rb (update f s.id StepStatus.Committed) rb
  | failStep (f : StepID → StepStatus) (rb : Bool) (s : StepDef) :
      s ∈ steps →
      (f s.id = StepStatus.Running ∨ f s.id = StepStatus.Verifying) →
      ExecStep steps f rb (update f s.id StepStatus.Failed) true
  | compensate (f : StepID → StepStatus) (s : StepDef) :
      s ∈ steps → f s.id = StepStatus.Committed →
      (∀ t ∈ steps, s.id ∈ t.depends_on →
        f t.id ≠ StepStatus.Running ∧ f t.id ≠ StepStatus.Verifying ∧
          f t.id ≠ StepStatus.Committed) →
      ExecStep steps f true (update f s.id StepStatus.Compensated) true

/-- Per-plan executor states reachable from all-`Pending`. -/
inductive ExecReach (steps : List StepDef) : (StepID → StepStatus) → Bool → Prop where
  | init : ExecReach steps (fun _ => StepStatus.Pending) false
  | step (f : StepID → StepStatus) (rb : Bool) (f2 : StepID → StepStatus) (rb2 : Bool) :
      ExecReach steps f rb → ExecStep steps f rb f2 rb2 → ExecReach steps f2 rb2

/-- Modelled from the spec: §7's error taxonomy. -/
inductive ErrorKind where
  | ValidationError
  | ConflictError
  | ExecutionError
  | HealthCheckFailure
  | RollbackFailure
  deriving DecidableEq, Repr

/-- Modelled from the spec: one step of a `TransformationPlan` spec as
submitted to `createPlan` (§3, §4.1). -/
structure PlanStepSpec where
  id : StepID
  target_services : List ServiceID
  depends_on : List StepID
  deriving DecidableEq, Repr

/-- Modelled from the spec: the plan spec submitted to `createPlan`. -/
structure PlanSpec where
  name : String
  steps : List PlanStepSpec
  deriving DecidableEq, Repr

/-- Modelled from the spec: Kahn-style topological sort used by plan
validation (§9: "validated away at plan-creation time via topological
sort").  Repeatedly picks a step all of whose dependencies are already
sorted; fails (`none`) when none is available. -/
def topoSortAux : ℕ → List PlanStepSpec → List StepID → Option (List StepID)
  | 0, remaining, acc => if remaining.isEmpty then some acc.reverse else none
  | n + 1, remaining, acc =>
    match remaining.find? (fun s => s.depends_on.all (fun d => acc.contains d)) with
    | some s => topoSortAux n (remaining.erase s) (s.id :: acc)
    | none => none

/-- Topological sort of a plan's steps. -/
def topoSort (steps : List PlanStepSpec) : Option (List StepID) :=
  topoSortAux steps.length steps []

/-- Modelled from the spec: the Plan Store's persisted plans. -/
structure PlanStoreState where
  plans : List (PlanID × PlanSpec)
  deriving DecidableEq, Repr

/-- Modelled from the spec: `createPlan(spec)` validates that the step DAG
is acyclic and that `target_services` reference existing services in the
current snapshot; it fails with `ValidationError` — persisting nothing —
otherwise (§4.1, Scenario C). -/
def createPlan (store : PlanStoreState) (services : ServiceID → Option ServiceDescriptor)
    (spec : PlanSpec) (newID : PlanID) : PlanStoreState × Except ErrorKind PlanID :=
  if (topoSort spec.steps).isNone then
    (store, Except.error ErrorKind.ValidationError)
  else if spec.steps.any (fun s => s.target_services.any (fun t => (services t).isNone)) then
    (store, Except.error ErrorKind.ValidationError)
  else
    ({ plans := store.plans ++ [(newID, spec)] }, Except.ok newID)

/-- A step-dependency cycle in a plan spec: a non-empty list of step ids,
cyclically ordered, where each names the next as a dependency. -/
def HasCycle (steps : List PlanStepSpec) : Prop :=
  ∃ c : List StepID, c ≠ [] ∧
    ∀ i < c.length, ∃ s ∈ steps,
      s.id = c.getD i "" ∧ c.getD ((i + 1) % c.length) "" ∈ s.depends_on

/-- Modelled from the spec: `verify(serviceID, window) → Healthy | Unhealthy
| Inconclusive` (§4.4). -/
inductive HealthResult where
  | Healthy
  | Unhealthy
  | Inconclusive
  deriving DecidableEq, Repr

/-- Outcome of one coordinated step: committed, or failed with compensation
of exactly the already-applied sub-actions triggered. -/
inductive StepOutcome where
  | committed
  | failedRollingBack
  deriving DecidableEq, Repr

/-- Modelled from the spec: the Step Coordinator's post-mutation health
gate (§4.3, §4.4).  After the forward mutation, the Health Verifier's
verdict decides commit or rollback: only `Healthy` commits; `Unhealthy`
and `Inconclusive` both fail the step and compensate the applied
sub-actions using the saved state. -/
def runStep (c : TopologyContent) (a : StepAction) (verdict : HealthResult) :
    TopologyContent × StepOutcome :=
  let saved := savedOf a c
  let mutated := forwardAction a c
  match verdict with
  | HealthResult.Healthy => (mutated, StepOutcome.committed)
  | HealthResult.Unhealthy => (compensateAction a saved mutated, StepOutcome.failedRollingBack)
  | HealthResult.Inconclusive => (compensateAction a saved mutated, StepOutcome.failedRollingBack)

/-- A JSON value, for the exposed API's responses (§6). -/
inductive Json where
  | str (s : String)
  | num (n : ℤ)
  | obj (fields : List (String × Json))
  | arr (xs : List Json)

/-- Field lookup on a JSON object. -/
def jsonField (j : Json) (k : String) : Option Json :=
  match j with
  | Json.obj fields => fields.lookup k
  | _ => none

/-- The machine-readable name of an error kind, as serialized in the
`kind` field. -/
def kindName : ErrorKind → String
  | ErrorKind.ValidationError => "ValidationError"
  | ErrorKind.ConflictError => "ConflictError"
  | ErrorKind.ExecutionError => "ExecutionError"
  | ErrorKind.HealthCheckFailure => "HealthCheckFailure"
  | ErrorKind.RollbackFailure => "RollbackFailure"

/-- Modelled from the spec: every error response body is JSON carrying a
machine-readable `kind` from §7's taxonomy, plus a human-readable
`detail` (the dashboard client reads `detail`/`message`). -/
def errorResponse (k : ErrorKind) (detail : String) : Json :=
  Json.obj [("kind", Json.str (kindName k)), ("detail", Json.str detail)]

/-- An HTTP response of the exposed API: a status code and a JSON body. -/
inductive ApiResponse where
  | ok (body : Json)
  | error (status : ℕ) (body : Json)

/-- Modelled from the spec: the `createPlan` endpoint (§6:
`createPlan(spec) → {id, status}`). -/
def apiCreatePlan (store : PlanStoreState)
    (services : ServiceID → Option ServiceDescriptor) (spec : PlanSpec)
    (newID : PlanID) : ApiResponse :=
  match (createPlan store services spec newID).2 with
  | Except.ok pid =>
    ApiResponse.ok (Json.obj [("id", Json.str pid), ("status", Json.str "Draft")])
  | Except.error k => ApiResponse.error 400 (errorResponse k "plan validation failed")

/-- Modelled from the spec: the `getPlan` endpoint (§6: `getPlan(id) →
PlanDetail`; an unknown id is a validation failure of the request). -/
def apiGetPlan (st : OrchState) (pid : PlanID) : ApiResponse :=
  match st.plans pid with
  | some (status, _) =>
    ApiResponse.ok (Json.obj [("id", Json.str pid), ("status", Json.str (toString (repr status)))])
  | none =>
    ApiResponse.error 404 (errorResponse ErrorKind.ValidationError "unknown plan id")

/-- Modelled from the spec: the `executePlan` endpoint (§6:
`executePlan(id) → {accepted|ConflictError}`). -/
def apiExecutePlan (st : OrchState) (pid : PlanID) : ApiResponse :=
  match executePlan st pid with
  | ExecuteResult.accepted _ => ApiResponse.ok (Json.obj [("accepted", Json.str "true")])
  | ExecuteResult.conflictError =>
    ApiResponse.error 409 (errorResponse ErrorKind.ConflictError "target service locked by another executing plan")
  | ExecuteResult.notExecutable =>
    ApiResponse.error 400 (errorResponse ErrorKind.ValidationError "plan is not ready for execution")

/-- Modelled from the spec: the `abortPlan` endpoint (§6: `abortPlan(id) →
{accepted|already-terminal}`). -/
def apiAbortPlan (st : OrchState) (pid : PlanID) : ApiResponse :=
  match st.plans pid with
  | some (PlanStatus.Executing, _) => ApiResponse.ok (Json.obj [("accepted", Json.str "true")])
  | some (_, _) => ApiResponse.ok (Json.obj [("accepted", Json.str "already-terminal")])
  | none =>
    ApiResponse.error 404 (errorResponse ErrorKind.ValidationError "unknown plan id")

/-- An API response whose error body (if any) carries a `kind` field naming
one of §7's taxonomy entries. -/
def errorCarriesTaxonomyKind : ApiResponse → Prop
  | ApiResponse.ok _ => True
  | ApiResponse.error _ body =>
    ∃ k : ErrorKind, jsonField body "kind" = some (Json.str (kindName k))

end Orchestrator

namespace Orchestrator

/-- Modelled from the spec: publishing a step's forward mutation as a new
snapshot — every accepted mutation produces `version + 1` (§3, §4.2). -/
def applyForwardSnapshot (snap : TopologySnapshot) (a : StepAction) : TopologySnapshot :=
  { version := snap.version + 1, content := forwardAction a snap.content }

/-- Modelled from the spec: publishing a compensation as a new snapshot
(the version number keeps increasing; only content is restored). -/
def applyCompensationSnapshot (snap : TopologySnapshot) (a : StepAction)
    (saved : SavedState) : TopologySnapshot :=
  { version := snap.version + 1, content := compensateAction a saved snap.content }

/-- Concrete two-service topology used to exercise the merge round trip. -/
def mergeFixtureSnap : TopologySnapshot :=
  TopologySnapshot.mk 7
    ⟨fun s =>
        if s = "svc-a" then
          some (ServiceDescriptor.mk "svc-a" ServiceStatus.active ["x"] ⟨1, 256⟩ [])
        else if s = "svc-b" then
          some (ServiceDescriptor.mk "svc-b" ServiceStatus.active ["y"] ⟨1, 256⟩ [])
        else none,
      fun r => if r = "/pay" then some "svc-a" else none⟩

/-- A merge of the two fixture services into a fresh one. -/
def mergeFixtureAction : StepAction :=
  StepAction.merge "svc-a" "svc-b"
    (ServiceDescriptor.mk "svc-ab" ServiceStatus.active ["x", "y"] ⟨2, 512⟩ [])

/-- A retirement of a fixture service (used to exercise the health gate). -/
def retireFixtureAction : StepAction := StepAction.retire "svc-b"

/-- Scenario D fixture: plan `plan-a` created against `payment-service`. -/
def scenarioD1 : OrchState :=
  { initialOrchState with
    plans := update initialOrchState.plans "plan-a"
      (some (PlanStatus.Draft, ["payment-service"])) }

/-- Scenario D fixture: `plan-a` validated to `Ready`. -/
def scenarioD2 : OrchState :=
  { scenarioD1 with
    plans := update scenarioD1.plans "plan-a"
      (some (PlanStatus.Ready, ["payment-service"])) }

/-- Scenario D fixture: `plan-a` accepted for execution, holding the lock
on `payment-service`. -/
def scenarioD3 : OrchState :=
  { plans := update scenarioD2.plans "plan-a"
      (some (PlanStatus.Executing, ["payment-service"]))
    locks := ["payment-service"].foldl (fun L s => update L s (some "plan-a")) scenarioD2.locks }

/-- Scenario D fixture: a second plan `plan-b` created against the same
service. -/
def scenarioD4 : OrchState :=
  { scenarioD3 with
    plans := update scenarioD3.plans "plan-b"
      (some (PlanStatus.Draft, ["payment-service"])) }

/-- Scenario D fixture: `plan-b` validated to `Ready` while `plan-a` is
still `Executing`. -/
def scenarioD5 : OrchState :=
  { scenarioD4 with
    plans := update scenarioD4.plans "plan-b"
      (some (PlanStatus.Ready, ["payment-service"])) }

end Orchestrator

namespace Dashboard

/-- A field overwritten by `setField` is looked up as the new value. -/
theorem setField_lookup_self (o : JSObject) (k : String) (v : JSVal) :
    (setField o k v).lookup k = some v := by
  induction o with
  | nil => simp [setField]
  | cons hd tl ih =>
    obtain ⟨k0, v0⟩ := hd
    by_cases h : k0 = k
    · subst h; simp [setField]
    · have hb : (k == k0) = false := beq_eq_false_iff_ne.mpr (Ne.symm h)
      simp [setField, h, List.lookup, hb, ih]

/-- `setField` leaves every other field's lookup unchanged. -/
theorem setField_lookup_ne (o : JSObject) (k k2 : String) (v : JSVal)
    (h : k2 ≠ k) : (setField o k v).lookup k2 = o.lookup k2 := by
  have hb : (k2 == k) = false := beq_eq_false_iff_ne.mpr h
  induction o with
  | nil => simp [setField, List.lookup, hb]
  | cons hd tl ih =>
    obtain ⟨k0, v0⟩ := hd
    by_cases hk : k0 = k
    · subst hk; simp [setField, List.lookup, hb]
    · simp [setField, hk, List.lookup, ih]

/-- `setField` on an absent key appends it. -/
theorem setField_keys_of_none (o : JSObject) (k : String) (v : JSVal)
    (h : o.lookup k = none) :
    (setField o k v).map Prod.fst = o.map Prod.fst ++ [k] := by
  induction o with
  | nil => simp [setField]
  | cons hd tl ih =>
    obtain ⟨k0, v0⟩ := hd
    by_cases hk : k0 = k
    · subst hk; simp [List.lookup] at h
    · have hb : (k == k0) = false := beq_eq_false_iff_ne.mpr (Ne.symm hk)
      simp only [List.lookup, hb] at h
      simp [setField, hk, ih h]

/-- `setField` on a present key keeps the key list unchanged. -/
theorem setField_keys_of_isSome (o : JSObject) (k : String) (v : JSVal)
    (h : (o.lookup k).isSome = true) :
    (setField o k v).map Prod.fst = o.map Prod.fst := by
  induction o with
  | nil => simp [List.lookup] at h
  | cons hd tl ih =>
    obtain ⟨k0, v0⟩ := hd
    by_cases hk : k0 = k
    · subst hk; simp [setField]
    · have hb : (k == k0) = false := beq_eq_false_iff_ne.mpr (Ne.symm hk)
      simp only [List.lookup, hb] at h
      simp [setField, hk, ih h]

/-- Element `i` of `calculateMovingAverage` on a non-empty array is the
input element with the `metric ++ "MA"` field set. -/
theorem calculateMovingAverage_getD (xs : List JSObject) (metric : String)
    (w : ℕ) (i : ℕ) (hne : xs ≠ []) (hi : i < xs.length) :
    (calculateMovingAverage (JSInput.arr xs) metric w).getD i []
      = setField (xs.getD i []) (metric ++ "MA")
          (JSVal.str (toFixed 2 (movingAverageAt xs metric w i))) := by
  have hemp : xs.isEmpty = false := by simpa using hne
  have hlen : (calculateMovingAverage (JSInput.arr xs) metric w).length = xs.length := by
    simp [calculateMovingAverage, hemp]
  have hi2 : i < (calculateMovingAverage (JSInput.arr xs) metric w).length := by
    rw [hlen]; exact hi
  rw [List.getD_eq_getElem?_getD, List.getD_eq_getElem?_getD,
    List.getElem?_eq_getElem hi2, List.getElem?_eq_getElem hi]
  simp [calculateMovingAverage, hemp]

/-- Claim C9: for every input that is null, undefined, not an array, or an
empty array, each of `processTelemetryData`, `aggregateTelemetryData`,
`calculateMovingAverage`, and `processTransactionTraces` returns the empty
array rather than throwing or returning a non-array value. -/
theorem telemetry_empty_input_guards (dP dA : JSInput TelemetryPoint)
    (dM : JSInput JSObject) (dT : JSInput Trace)
    (fmt interval metric : String) (w : ℕ)
    (hP : dP = JSInput.null ∨ dP = JSInput.undefined ∨ dP = JSInput.nonArrayValue ∨ dP = JSInput.arr [])
    (hA : dA = JSInput.null ∨ dA = JSInput.undefined ∨ dA = JSInput.nonArrayValue ∨ dA = JSInput.arr [])
    (hM : dM = JSInput.null ∨ dM = JSInput.undefined ∨ dM = JSInput.nonArrayValue ∨ dM = JSInput.arr [])
    (hT : dT = JSInput.null ∨ dT = JSInput.undefined ∨ dT = JSInput.nonArrayValue ∨ dT = JSInput.arr []) :
    processTelemetryData dP fmt = [] ∧ aggregateTelemetryData dA interval = [] ∧
      calculateMovingAverage dM metric w = [] ∧ processTransactionTraces dT = [] := by
  refine ⟨?_, ?_, ?_, ?_⟩
  · rcases hP with h | h | h | h <;> subst h <;> rfl
  · rcases hA with h | h | h | h <;> subst h <;> rfl
  · rcases hM with h | h | h | h <;> subst h <;> rfl
  · rcases hT with h | h | h | h <;> subst h <;> rfl

/-- Witness for C9 at the four degenerate inputs. -/
theorem telemetry_empty_input_guards_witness :
    processTelemetryData JSInput.null "minute" = [] ∧
      aggregateTelemetryData JSInput.undefined "minute" = [] ∧
      calculateMovingAverage JSInput.nonArrayValue "latency" 5 = [] ∧
      processTransactionTraces (JSInput.arr []) = [] :=
  telemetry_empty_input_guards JSInput.null JSInput.undefined JSInput.nonArrayValue
    (JSInput.arr []) "minute" "minute" "latency" 5 (Or.inl rfl) (Or.inr (Or.inl rfl))
    (Or.inr (Or.inr (Or.inl rfl))) (Or.inr (Or.inr (Or.inr rfl)))

/-- Claim C10, counterexample: when an input element already carries the
field `latencyMA`, `calculateMovingAverage` with metric `latency` does not
retain that field's value — the spread overwrites it — so the element does
not "retain all fields with unchanged values" and no new field is added. -/
theorem calculateMovingAverage_overwrite_counterexample :
    ¬ (∀ k, k ∈ ([("latencyMA", JSVal.str "999"), ("latency", JSVal.str "1")] : JSObject).map Prod.fst →
        ((calculateMovingAverage
            (JSInput.arr [[("latencyMA", JSVal.str "999"), ("latency", JSVal.str "1")]])
            "latency" 5).getD 0 []).lookup k
          = ([("latencyMA", JSVal.str "999"), ("latency", JSVal.str "1")] : JSObject).lookup k) := by
  intro h
  have h2 := h "latencyMA" (by simp)
  rw [show (calculateMovingAverage
      (JSInput.arr [[("latencyMA", JSVal.str "999"), ("latency", JSVal.str "1")]])
      "latency" 5) = [[("latencyMA", JSVal.str "1.00"), ("latency", JSVal.str "1")]] from by
    with_unfolding_all decide] at h2
  simp [List.lookup] at h2

/-- Claim C10 (as amended): for every non-empty array input,
`calculateMovingAverage` returns an array of the same length in which every
element retains all fields other than `metric ++ "MA"` with unchanged
values; the field `metric ++ "MA"` holds the window average — appended as
one new field when absent from the input element, overwritten in place when
already present. -/
theorem calculateMovingAverage_frame_amended (xs : List JSObject)
    (metric : String) (w : ℕ) (hne : xs ≠ []) :
    (calculateMovingAverage (JSInput.arr xs) metric w).length = xs.length ∧
    ∀ i, i < xs.length →
      ((∀ k, k ≠ metric ++ "MA" →
          ((calculateMovingAverage (JSInput.arr xs) metric w).getD i []).lookup k
            = (xs.getD i []).lookup k) ∧
       ((calculateMovingAverage (JSInput.arr xs) metric w).getD i []).lookup (metric ++ "MA")
          = some (JSVal.str (toFixed 2 (movingAverageAt xs metric w i))) ∧
       ((xs.getD i []).lookup (metric ++ "MA") = none →
          ((calculateMovingAverage (JSInput.arr xs) metric w).getD i []).map Prod.fst
            = (xs.getD i []).map Prod.fst ++ [metric ++ "MA"]) ∧
       (((xs.getD i []).lookup (metric ++ "MA")).isSome = true →
          ((calculateMovingAverage (JSInput.arr xs) metric w).getD i []).map Prod.fst
            = (xs.getD i []).map Prod.fst)) := by
  have hemp : xs.isEmpty = false := by simpa using hne
  refine ⟨by simp [calculateMovingAverage, hemp], ?_⟩
  intro i hi
  rw [calculateMovingAverage_getD xs metric w i hne hi]
  exact ⟨fun k hk => setField_lookup_ne _ _ _ _ hk,
    setField_lookup_self _ _ _,
    fun h => setField_keys_of_none _ _ _ h,
    fun h => setField_keys_of_isSome _ _ _ h⟩

/-- Witness for the amended C10 at a one-element array. -/
theorem calculateMovingAverage_frame_amended_witness :
    (([[("latency", JSVal.str "2")]] : List JSObject) ≠ []) ∧
    (calculateMovingAverage (JSInput.arr [[("latency", JSVal.str "2")]]) "latency" 5).length
      = ([[("latency", JSVal.str "2")]] : List JSObject).length :=
  ⟨by decide,
    (calculateMovingAverage_frame_amended [[("latency", JSVal.str "2")]] "latency" 5 (by decide)).1⟩

end Dashboard

namespace Orchestrator

/-- `update` at the written key. -/
theorem update_self {β : Type} (m : String → β) (k : String) (v : β) :
    update m k v k = v := by simp [update]

/-- `update` leaves other keys unchanged. -/
theorem update_ne {β : Type} (m : String → β) (k x : String) (v : β)
    (h : x ≠ k) : update m k v x = m x := by simp [update, h]

/-- A fold of updates leaves keys outside the written set unchanged. -/
theorem foldl_update_not_mem {β γ : Type} (l : List γ) (f : γ → String)
    (g : γ → β) (m : String → β) (x : String) (h : x ∉ l.map f) :
    (l.foldl (fun acc t => update acc (f t) (g t)) m) x = m x := by
  induction l generalizing m with
  | nil => rfl
  | cons hd tl ih =>
    simp only [List.map_cons, List.mem_cons, not_or] at h
    obtain ⟨h1, h2⟩ := h
    simp only [List.foldl_cons]
    rw [ih _ h2, update_ne _ _ _ _ h1]

/-- A fold of constant-valued updates writes that value at every written
key. -/
theorem foldl_update_const_mem {β γ : Type} (l : List γ) (f : γ → String)
    (v : β) (m : String → β) (x : String) (h : x ∈ l.map f) :
    (l.foldl (fun acc t => update acc (f t) v) m) x = v := by
  induction l generalizing m with
  | nil => simp at h
  | cons hd tl ih =>
    by_cases h2 : x ∈ tl.map f
    · simp only [List.foldl_cons]
      exact ih _ h2
    · have h1 : x = f hd := by
        simp only [List.map_cons, List.mem_cons] at h
        tauto
      simp only [List.foldl_cons]
      rw [foldl_update_not_mem _ _ _ _ _ h2, h1, update_self]

/-- Compensation restores the pre-forward content: shared round-trip lemma
behind C3 and C6. -/
theorem compensate_forward_roundtrip (a : StepAction) (c : TopologyContent)
    (h : Precond a c) :
    compensateAction a (savedOf a c) (forwardAction a c) = c := by
  obtain ⟨sv, rt⟩ := c
  cases a with
  | create svc =>
    simp only [Precond] at h
    simp only [savedOf, forwardAction, compensateAction]
    congr 1
    funext x
    by_cases hx : x = svc.id
    · subst hx; rw [update_self]; exact h.symm
    · rw [update_ne _ _ _ _ hx, update_ne _ _ _ _ hx]
  | retire target =>
    simp only [savedOf, forwardAction, compensateAction]
    congr 1
    funext x
    by_cases hx : x = target
    · subst hx; rw [update_self]
    · rw [update_ne _ _ _ _ hx, update_ne _ _ _ _ hx]
  | scale target alloc =>
    simp only [Precond] at h
    obtain ⟨d, hd⟩ := Option.isSome_iff_exists.mp h
    simp only [savedOf, forwardAction, compensateAction, hd]
    rw [update_self]
    simp only [Option.map_some']
    congr 1
    funext x
    by_cases hx : x = target
    · subst hx
      rw [update_self, hd]
    · rw [update_ne _ _ _ _ hx, update_ne _ _ _ _ hx]
  | reroute pats newTarget =>
    simp only [savedOf, forwardAction, compensateAction]
    congr 1
    funext r
    by_cases hr : r ∈ pats
    · simp [hr]
    · simp [hr]
  | merge s1 s2 merged =>
    simp only [Precond] at h
    obtain ⟨hne, hs1, hs2, hmid⟩ := h
    simp only [savedOf, forwardAction, compensateAction]
    congr 1
    funext x
    by_cases hx2 : x = s2
    · subst hx2; rw [update_self]
    · rw [update_ne _ _ _ _ hx2]
      by_cases hx1 : x = s1
      · subst hx1; rw [update_self]
      · rw [update_ne _ _ _ _ hx1]
        by_cases hxm : x = merged.id
        · subst hxm; rw [update_self, hmid]
        · rw [update_ne _ _ _ _ hxm, update_ne _ _ _ _ hxm,
            update_ne _ _ _ _ hx2, update_ne _ _ _ _ hx1]
  | split src targets assign =>
    simp only [Precond] at h
    obtain ⟨hsrc, hnodup, hfresh, hnot⟩ := h
    simp only [savedOf, forwardAction, compensateAction]
    congr 1
    funext x
    by_cases hx : x = src
    · subst hx; rw [update_self]
    · rw [update_ne _ _ _ _ hx]
      by_cases hmem : x ∈ targets.map ServiceDescriptor.id
      · have : (targets.map ServiceDescriptor.id).foldl (fun m t => update m t none)
            (update (targets.foldl (fun m t => update m t.id (some t)) sv) src none) x = none := by
          have := foldl_update_const_mem (targets.map ServiceDescriptor.id) (fun t => t)
            (none : Option ServiceDescriptor)
            (update (targets.foldl (fun m t => update m t.id (some t)) sv) src none) x
            (by simpa using hmem)
          simpa using this
        rw [this]
        obtain ⟨t, ht, hid⟩ := List.mem_map.mp hmem
        rw [← hid]
        exact (hfresh t ht).symm
      · have hnm : x ∉ (targets.map ServiceDescriptor.id).map (fun t => t) := by
          simpa using hmem
        have := foldl_update_not_mem (targets.map ServiceDescriptor.id) (fun t => t)
          (fun _ => (none : Option ServiceDescriptor))
          (update (targets.foldl (fun m t => update m t.id (some t)) sv) src none) x hnm
        simp only at this
        rw [this, update_ne _ _ _ _ hx]
        exact foldl_update_not_mem targets ServiceDescriptor.id (fun t => some t) sv x hmem

end Orchestrator

namespace Orchestrator

theorem recordReach_invariant (r : PlanRecord) (h : RecordReach r) :
    r.audit.getLast? = some r.status ∧
      List.Chain' (fun a b => validTransition a b = true) r.audit := by
  induction h with
  | init => exact ⟨rfl, List.chain'_singleton _⟩
  | step r r2 s hr heq ih =>
    obtain ⟨hlast, hchain⟩ := ih
    simp only [recordTransition] at heq
    by_cases hv : validTransition r.status s = true
    · rw [if_pos hv] at heq
      obtain ⟨rfl⟩ := Except.ok.inj heq
      refine ⟨List.getLast?_concat _, ?_⟩
      rw [List.chain'_append]
      refine ⟨hchain, List.chain'_singleton _, ?_⟩
      intro x hx y hy
      simp only [List.head?] at hy
      rw [hlast] at hx
      simp only [Option.mem_def, Option.some.injEq] at hx hy
      rw [← hx, ← hy]
      exact hv
    · rw [if_neg hv] at heq
      cases heq

/-- Claim C1: status only changes along
Draft→Ready→Executing→{Completed, Failed→RolledBack|FailedNeedsManualRecovery};
every audit trail reachable through `recordTransition` follows these edges,
and a `recordTransition` call requesting any other transition is rejected
with an error, leaving nothing applied. -/
theorem plan_status_transitions_follow_graph (r : PlanRecord)
    (h : RecordReach r) :
    List.Chain' (fun a b => validTransition a b = true) r.audit ∧
      ∀ s, validTransition r.status s = false →
        recordTransition r s = Except.error "IllegalTransition" := by
  refine ⟨(recordReach_invariant r h).2, ?_⟩
  intro s hs
  simp [recordTransition, hs]

/-- Witness for C1: the record after Draft→Ready. -/
theorem plan_status_transitions_follow_graph_witness :
    List.Chain' (fun a b => validTransition a b = true)
        (PlanRecord.mk PlanStatus.Ready [PlanStatus.Draft, PlanStatus.Ready]).audit ∧
      ∀ s, validTransition (PlanRecord.mk PlanStatus.Ready
            [PlanStatus.Draft, PlanStatus.Ready]).status s = false →
        recordTransition (PlanRecord.mk PlanStatus.Ready
            [PlanStatus.Draft, PlanStatus.Ready]) s = Except.error "IllegalTransition" :=
  plan_status_transitions_follow_graph _
    (RecordReach.step freshPlanRecord _ PlanStatus.Ready RecordReach.init rfl)

/-- Claim C7: versions are strictly increasing through the CAS: a writer
that read the current version N commits successfully and publishes exactly
N + 1; afterwards any other writer still proposing against N (i.e. N + 1)
is rejected. -/
theorem topology_versions_strictly_increase (store : TopologyStore)
    (p : MutationProposal) (hbase : p.baseVersion = store.current.version) :
    ∃ store2, commitMutation store p = CasResult.accepted store2 ∧
      store2.current.version = p.baseVersion + 1 ∧
      store2.current.version = store.current.version + 1 ∧
      store2.current.version > store.current.version ∧
      ∀ q : MutationProposal, q.baseVersion = p.baseVersion →
        commitMutation store2 q = CasResult.rejected := by
  refine ⟨⟨{ version := store.current.version + 1, content := p.content }⟩, ?_, ?_, rfl, ?_, ?_⟩
  · simp [commitMutation, hbase]
  · rw [hbase]
  · exact Nat.lt_succ_self _
  · intro q hq
    simp only [commitMutation]
    rw [if_neg]
    rw [hq, hbase]
    exact Nat.ne_of_lt (Nat.lt_succ_self _)

/-- Witness for C7 at a concrete empty-topology store. -/
theorem topology_versions_strictly_increase_witness :
    (0 : ℕ) = (TopologyStore.mk ⟨0, ⟨fun _ => none, fun _ => none⟩⟩).current.version ∧
    ∃ store2,
      commitMutation (TopologyStore.mk ⟨0, ⟨fun _ => none, fun _ => none⟩⟩)
          ⟨0, ⟨fun _ => none, fun _ => none⟩⟩ = CasResult.accepted store2 ∧
      store2.current.version = (0 : ℕ) + 1 ∧
      store2.current.version
        = (TopologyStore.mk ⟨0, ⟨fun _ => none, fun _ => none⟩⟩).current.version + 1 ∧
      store2.current.version
        > (TopologyStore.mk ⟨0, ⟨fun _ => none, fun _ => none⟩⟩).current.version ∧
      ∀ q : MutationProposal, q.baseVersion = (0 : ℕ) →
        commitMutation store2 q = CasResult.rejected :=
  ⟨rfl, topology_versions_strictly_increase _ _ rfl⟩

/-- Claim C3: for every step type and every topology snapshot satisfying
the step's preconditions, applying the forward action and then its
compensation yields a snapshot whose `services` and `routing` maps equal
the pre-forward ones (the version number differs — each publication bumps
it). -/
theorem compensation_restores_content (snap : TopologySnapshot)
    (a : StepAction) (h : Precond a snap.content) :
    (applyCompensationSnapshot (applyForwardSnapshot snap a) a
        (savedOf a snap.content)).content.services = snap.content.services ∧
    (applyCompensationSnapshot (applyForwardSnapshot snap a) a
        (savedOf a snap.content)).content.routing = snap.content.routing := by
  have hr := compensate_forward_roundtrip a snap.content h
  simp only [applyForwardSnapshot, applyCompensationSnapshot]
  exact ⟨congrArg TopologyContent.services hr, congrArg TopologyContent.routing hr⟩

/-- Witness for C3: a `merge` of two registered services into a fresh one. -/
theorem compensation_restores_content_witness :
    Precond mergeFixtureAction mergeFixtureSnap.content ∧
    (applyCompensationSnapshot (applyForwardSnapshot mergeFixtureSnap mergeFixtureAction)
        mergeFixtureAction (savedOf mergeFixtureAction mergeFixtureSnap.content)).content.services
      = mergeFixtureSnap.content.services := by
  have hp : Precond mergeFixtureAction mergeFixtureSnap.content :=
    ⟨by decide, rfl, rfl, rfl⟩
  exact ⟨hp, (compensation_restores_content mergeFixtureSnap mergeFixtureAction hp).1⟩

/-- Claim C6: a mutation whose post-mutation Health Verifier verdict is
`Inconclusive` is handled exactly as `Unhealthy`: the coordinator produces
the same result, the step fails rather than committing, and the applied
sub-actions are compensated so the topology content is restored. -/
theorem inconclusive_treated_as_unhealthy (c : TopologyContent)
    (a : StepAction) (h : Precond a c) :
    runStep c a HealthResult.Inconclusive = runStep c a HealthResult.Unhealthy ∧
    (runStep c a HealthResult.Inconclusive).2 = StepOutcome.failedRollingBack ∧
    (runStep c a HealthResult.Inconclusive).2 ≠ StepOutcome.committed ∧
    (runStep c a HealthResult.Inconclusive).1 = c := by
  refine ⟨rfl, rfl, by simp [runStep], ?_⟩
  simp only [runStep]
  exact compensate_forward_roundtrip a c h

/-- Witness for C6: retiring a registered fixture service. -/
theorem inconclusive_treated_as_unhealthy_witness :
    Precond retireFixtureAction mergeFixtureSnap.content ∧
    (runStep mergeFixtureSnap.content retireFixtureAction HealthResult.Inconclusive).1
      = mergeFixtureSnap.content := by
  have hp : Precond retireFixtureAction mergeFixtureSnap.content := rfl
  exact ⟨hp,
    (inconclusive_treated_as_unhealthy mergeFixtureSnap.content retireFixtureAction hp).2.2.2⟩

end Orchestrator

namespace Orchestrator

/-- Inversion of an accepted `executePlan`: the plan was `Ready`, no
target was locked by another plan, and the new state locks every target. -/
theorem executePlan_accepted_inv (st st2 : OrchState) (pid : PlanID)
    (h : executePlan st pid = ExecuteResult.accepted st2) :
    ∃ targets, st.plans pid = some (PlanStatus.Ready, targets) ∧
      lockConflict st pid targets = false ∧
      st2 = { plans := update st.plans pid (some (PlanStatus.Executing, targets))
              locks := targets.foldl (fun L s => update L s (some pid)) st.locks } := by
  unfold executePlan at h
  split at h
  case _ x targets heq =>
    split at h
    · cases h
    · cases h
      rename_i hc
      exact ⟨targets, heq, by simpa using hc, rfl⟩
  case _ x hne => cases h

/-- A passed conflict check means every locked target was locked by the
requesting plan itself. -/
theorem lockConflict_false_inv (st : OrchState) (pid : PlanID)
    (targets : List ServiceID) (h : lockConflict st pid targets = false) :
    ∀ s ∈ targets, ∀ q, st.locks s = some q → q = pid := by
  intro s hs q hq
  by_contra hne
  rw [lockConflict, List.any_eq_false] at h
  have h2 := h s hs
  rw [hq] at h2
  simp [hne] at h2

/-- Every reachable orchestrator state locks all target services of every
`Executing` plan for that plan. -/
theorem orchReach_locks_invariant (st : OrchState) (h : OrchReach st) :
    ∀ pid targets, st.plans pid = some (PlanStatus.Executing, targets) →
      ∀ s ∈ targets, st.locks s = some pid := by
  induction h with
  | init => intro pid targets hp; cases hp
  | step st st2 hr hstep ih =>
    cases hstep with
    | create pid targets hnone =>
      intro p tp hp s hs
      dsimp only at hp ⊢
      by_cases hpp : p = pid
      · subst hpp; rw [update_self] at hp; simp at hp
      · rw [update_ne _ _ _ _ hpp] at hp
        exact ih p tp hp s hs
    | validate pid targets hd =>
      intro p tp hp s hs
      dsimp only at hp ⊢
      by_cases hpp : p = pid
      · subst hpp; rw [update_self] at hp; simp at hp
      · rw [update_ne _ _ _ _ hpp] at hp
        exact ih p tp hp s hs
    | execute =>
      rename_i pid hacc
      obtain ⟨targets, hready, hconf, rfl⟩ := executePlan_accepted_inv st st2 pid hacc
      intro p tp hp s hs
      dsimp only at hp ⊢
      by_cases hpp : p = pid
      · rw [hpp] at hp
        rw [update_self] at hp
        simp only [Option.some.injEq, Prod.mk.injEq, true_and] at hp
        rw [← hp] at hs
        rw [hpp]
        have := foldl_update_const_mem targets (fun t => t) (some pid) st.locks s
          (by simpa using hs)
        simpa using this
      · rw [update_ne _ _ _ _ hpp] at hp
        have hlock := ih p tp hp s hs
        by_cases hmem : s ∈ targets
        · exact absurd (lockConflict_false_inv st pid targets hconf s hmem p hlock) hpp
        · have := foldl_update_not_mem targets (fun t => t) (fun _ => some pid) st.locks s
            (by simpa using hmem)
          simp only at this
          rw [this]
          exact hlock
    | complete pid targets hexec =>
      intro p tp hp s hs
      simp only [finishPlan] at hp ⊢
      by_cases hpp : p = pid
      · subst hpp; rw [update_self] at hp; simp at hp
      · rw [update_ne _ _ _ _ hpp] at hp
        have hlock := ih p tp hp s hs
        rw [hlock, if_neg (by simpa using hpp)]
    | fail pid targets hexec =>
      intro p tp hp s hs
      dsimp only at hp ⊢
      by_cases hpp : p = pid
      · subst hpp; rw [update_self] at hp; simp at hp
      · rw [update_ne _ _ _ _ hpp] at hp
        exact ih p tp hp s hs
    | rollBack pid targets hfail =>
      intro p tp hp s hs
      simp only [finishPlan] at hp ⊢
      by_cases hpp : p = pid
      · subst hpp; rw [update_self] at hp; simp at hp
      · rw [update_ne _ _ _ _ hpp] at hp
        have hlock := ih p tp hp s hs
        rw [hlock, if_neg (by simpa using hpp)]
    | manualRecovery pid targets hfail =>
      intro p tp hp s hs
      simp only [finishPlan] at hp ⊢
      by_cases hpp : p = pid
      · subst hpp; rw [update_self] at hp; simp at hp
      · rw [update_ne _ _ _ _ hpp] at hp
        have hlock := ih p tp hp s hs
        rw [hlock, if_neg (by simpa using hpp)]

end Orchestrator

namespace Orchestrator

/-- Claim C2: in every reachable state, two distinct `Executing` plans have
disjoint `target_services`; and when a plan is `Executing`, `executePlan`
on a `Ready` plan sharing a target service returns `ConflictError`. -/
theorem executing_plans_have_disjoint_targets (st : OrchState) (h : OrchReach st) :
    (∀ p q tp tq, p ≠ q →
      st.plans p = some (PlanStatus.Executing, tp) →
      st.plans q = some (PlanStatus.Executing, tq) →
      ∀ s ∈ tp, s ∉ tq) ∧
    (∀ p tp q tq, p ≠ q →
      st.plans p = some (PlanStatus.Executing, tp) →
      st.plans q = some (PlanStatus.Ready, tq) →
      (∃ s, s ∈ tp ∧ s ∈ tq) →
      executePlan st q = ExecuteResult.conflictError) := by
  have inv := orchReach_locks_invariant st h
  constructor
  · intro p q tp tq hpq hp hq s hsp hsq
    have h1 := inv p tp hp s hsp
    have h2 := inv q tq hq s hsq
    rw [h1] at h2
    exact hpq (Option.some.inj h2)
  · rintro p tp q tq hpq hp hq ⟨s, hsp, hsq⟩
    have h1 := inv p tp hp s hsp
    have hconf : lockConflict st q tq = true := by
      rw [lockConflict, List.any_eq_true]
      refine ⟨s, hsq, ?_⟩
      rw [h1]
      simp only [ne_eq, decide_eq_true_eq]
      exact hpq
    simp [executePlan, hq, hconf]

/-- Witness for C2: Scenario D — `plan-a` is `Executing` against
`payment-service`, and `executePlan` of the `Ready` plan `plan-b` targeting
the same service returns `ConflictError`. -/
theorem executing_plans_have_disjoint_targets_witness :
    scenarioD5.plans "plan-a" = some (PlanStatus.Executing, ["payment-service"]) ∧
    scenarioD5.plans "plan-b" = some (PlanStatus.Ready, ["payment-service"]) ∧
    executePlan scenarioD5 "plan-b" = ExecuteResult.conflictError := by
  have r1 : OrchReach scenarioD1 :=
    OrchReach.step _ _ OrchReach.init
      (OrchStep.create initialOrchState "plan-a" ["payment-service"] rfl)
  have r2 : OrchReach scenarioD2 :=
    OrchReach.step _ _ r1 (OrchStep.validate scenarioD1 "plan-a" ["payment-service"] rfl)
  have r3 : OrchReach scenarioD3 :=
    OrchReach.step _ _ r2 (OrchStep.execute scenarioD2 scenarioD3 "plan-a" rfl)
  have r4 : OrchReach scenarioD4 :=
    OrchReach.step _ _ r3 (OrchStep.create scenarioD3 "plan-b" ["payment-service"] rfl)
  have r5 : OrchReach scenarioD5 :=
    OrchReach.step _ _ r4 (OrchStep.validate scenarioD4 "plan-b" ["payment-service"] rfl)
  refine ⟨rfl, rfl, ?_⟩
  exact (executing_plans_have_disjoint_targets scenarioD5 r5).2 "plan-a" ["payment-service"]
    "plan-b" ["payment-service"] (by decide) rfl rfl
    ⟨"payment-service", by decide, by decide⟩

end Orchestrator

namespace Orchestrator

/-- In every reachable executor state, a `Running` step has all its
dependencies `Committed`. -/
theorem execReach_deps_invariant (steps : List StepDef) (f : StepID → StepStatus)
    (rb : Bool) (h : ExecReach steps f rb)
    (hnodup : (steps.map StepDef.id).Nodup) :
    ∀ s ∈ steps, f s.id = StepStatus.Running →
      ∀ d ∈ s.depends_on, f d = StepStatus.Committed := by
  induction h with
  | init => intro s hs hrun; cases hrun
  | step f rb f2 rb2 hr hstep ih =>
    cases hstep with
    | start s0 hmem hpend hdeps =>
      intro s hs hrun d hd
      by_cases hid : s.id = s0.id
      · have hss : s = s0 := List.inj_on_of_nodup_map hnodup hs hmem hid
        subst hss
        have hdc := hdeps d hd
        have hdne : d ≠ s.id := fun he => by rw [he, hpend] at hdc; cases hdc
        rw [update_ne _ _ _ _ hdne]
        exact hdc
      · rw [update_ne _ _ _ _ hid] at hrun
        have hdc := ih s hs hrun d hd
        have hdne : d ≠ s0.id := fun he => by rw [he, hpend] at hdc; cases hdc
        rw [update_ne _ _ _ _ hdne]
        exact hdc
    | verify rb0 s0 hmem hrunning =>
      intro s hs hrun d hd
      by_cases hid : s.id = s0.id
      · rw [hid, update_self] at hrun; cases hrun
      · rw [update_ne _ _ _ _ hid] at hrun
        have hdc := ih s hs hrun d hd
        have hdne : d ≠ s0.id := fun he => by rw [he, hrunning] at hdc; cases hdc
        rw [update_ne _ _ _ _ hdne]
        exact hdc
    | commit rb0 s0 hmem hver =>
      intro s hs hrun d hd
      by_cases hid : s.id = s0.id
      · rw [hid, update_self] at hrun; cases hrun
      · rw [update_ne _ _ _ _ hid] at hrun
        have hdc := ih s hs hrun d hd
        by_cases hdne : d = s0.id
        · rw [hdne, update_self]
        · rw [update_ne _ _ _ _ hdne]
          exact hdc
    | failStep rb0 s0 hmem hrv =>
      intro s hs hrun d hd
      by_cases hid : s.id = s0.id
      · rw [hid, update_self] at hrun; cases hrun
      · rw [update_ne _ _ _ _ hid] at hrun
        have hdc := ih s hs hrun d hd
        have hdne : d ≠ s0.id := by
          intro he
          rcases hrv with h1 | h1 <;> rw [he, h1] at hdc <;> cases hdc
        rw [update_ne _ _ _ _ hdne]
        exact hdc
    | compensate s0 hmem hcom hguard =>
      intro s hs hrun d hd
      by_cases hid : s.id = s0.id
      · rw [hid, update_self] at hrun; cases hrun
      · rw [update_ne _ _ _ _ hid] at hrun
        have hdc := ih s hs hrun d hd
        have hdne : d ≠ s0.id := by
          intro he
          have := (hguard s hs (by rw [← he]; exact hd)).1
          exact this hrun
        rw [update_ne _ _ _ _ hdne]
        exact hdc

/-- Claim C4: in every reachable execution state of a plan whose step ids
are distinct, a step with a dependency not in status `Committed` is never
in status `Running` — the executor starts a step only after all its
dependencies have committed. -/
theorem step_never_runs_before_deps_committed (steps : List StepDef)
    (f : StepID → StepStatus) (rb : Bool) (h : ExecReach steps f rb)
    (hnodup : (steps.map StepDef.id).Nodup) (s : StepDef) (hs : s ∈ steps)
    (d : StepID) (hd : d ∈ s.depends_on)
    (hnc : f d ≠ StepStatus.Committed) : f s.id ≠ StepStatus.Running := by
  intro hrun
  exact hnc (execReach_deps_invariant steps f rb h hnodup s hs hrun d hd)

/-- Witness for C4: two steps where `step-2` depends on `step-1`; after
`step-1` starts (and is merely `Running`), `step-2` is not `Running`. -/
theorem step_never_runs_before_deps_committed_witness :
    update (fun _ => StepStatus.Pending) "step-1" StepStatus.Running "step-1"
        ≠ StepStatus.Committed ∧
    update (fun _ => StepStatus.Pending) "step-1" StepStatus.Running
        (StepDef.mk "step-2" ["step-1"]).id ≠ StepStatus.Running := by
  have hreach : ExecReach [StepDef.mk "step-1" [], StepDef.mk "step-2" ["step-1"]]
      (update (fun _ => StepStatus.Pending) "step-1" StepStatus.Running) false :=
    ExecReach.step _ _ _ _ ExecReach.init
      (ExecStep.start (fun _ => StepStatus.Pending) (StepDef.mk "step-1" [])
        (by simp) rfl (by simp))
  refine ⟨by decide, ?_⟩
  exact step_never_runs_before_deps_committed _ _ _ hreach (by decide)
    (StepDef.mk "step-2" ["step-1"]) (by simp) "step-1" (by simp) (by decide)

end Orchestrator

namespace Orchestrator

/-- An entry of a cycle, read at a valid index, is a member of the cycle
list. -/
theorem cycle_getD_mem (c : List StepID) (i : ℕ) (hi : i < c.length) :
    c.getD i "" ∈ c := by
  rw [List.getD_eq_getElem?_getD, List.getElem?_eq_getElem hi]
  exact List.getElem_mem _

/-- Kahn's sort never terminates successfully in the presence of a
dependency cycle: no cycle member ever becomes ready, so the remaining
list never empties. -/
theorem topoSortAux_none_of_cycle (c : List StepID) (hc : c ≠ []) (fuel : ℕ) :
    ∀ (remaining : List PlanStepSpec) (acc : List StepID),
      (remaining.map PlanStepSpec.id).Nodup →
      (∀ i < c.length, ∃ s ∈ remaining,
        s.id = c.getD i "" ∧ c.getD ((i + 1) % c.length) "" ∈ s.depends_on) →
      (∀ x ∈ c, x ∉ acc) →
      topoSortAux fuel remaining acc = none := by
  have hclen : 0 < c.length := List.length_pos.mpr hc
  induction fuel with
  | zero =>
    intro remaining acc hnodup hcyc hacc
    obtain ⟨s, hs, -, -⟩ := hcyc 0 hclen
    rw [show topoSortAux 0 remaining acc
        = if remaining.isEmpty then some acc.reverse else none from rfl]
    rw [if_neg]
    rw [List.isEmpty_iff]
    exact List.ne_nil_of_mem hs
  | succ n ih =>
    intro remaining acc hnodup hcyc hacc
    have hunfold : topoSortAux (n + 1) remaining acc
        = match remaining.find? (fun s => s.depends_on.all (fun d => acc.contains d)) with
          | some s => topoSortAux n (remaining.erase s) (s.id :: acc)
          | none => none := rfl
    cases hfind : remaining.find? (fun s => s.depends_on.all (fun d => acc.contains d)) with
    | none => rw [hunfold, hfind]
    | some s =>
      have hready := List.find?_some hfind
      have hsmem := List.mem_of_find?_eq_some hfind
      have hsid : ∀ i < c.length, s.id ≠ c.getD i "" := by
        intro i hi heq
        obtain ⟨s2, hs2mem, hs2id, hs2dep⟩ := hcyc i hi
        have hss : s2 = s :=
          List.inj_on_of_nodup_map hnodup hs2mem hsmem (by rw [hs2id, ← heq])
        subst hss
        have hdep_in_acc : c.getD ((i + 1) % c.length) "" ∈ acc := by
          rw [List.all_eq_true] at hready
          have h3 := hready _ hs2dep
          simpa [List.elem_iff] using h3
        exact hacc _ (cycle_getD_mem c _ (Nat.mod_lt _ hclen)) hdep_in_acc
      rw [hunfold, hfind]
      apply ih
      · exact ((remaining.erase_sublist s).map PlanStepSpec.id).nodup hnodup
      · intro i hi
        obtain ⟨s2, hs2mem, hs2id, hs2dep⟩ := hcyc i hi
        refine ⟨s2, ?_, hs2id, hs2dep⟩
        have hne : s2 ≠ s := by
          intro he
          subst he
          exact hsid i hi hs2id
        exact (List.mem_erase_of_ne hne).mpr hs2mem
      · intro x hx
        simp only [List.mem_cons, not_or]
        refine ⟨?_, hacc x hx⟩
        obtain ⟨j, hj, hgj⟩ := List.getElem_of_mem hx
        intro he
        refine hsid j hj ?_
        rw [← he]
        rw [List.getD_eq_getElem?_getD, List.getElem?_eq_getElem hj, hgj]
        rfl

/-- A plan spec with a dependency cycle (and well-formed distinct step ids)
fails topological sorting. -/
theorem topoSort_none_of_cycle (steps : List PlanStepSpec)
    (hnodup : (steps.map PlanStepSpec.id).Nodup) (hcyc : HasCycle steps) :
    topoSort steps = none := by
  obtain ⟨c, hc, hcyc2⟩ := hcyc
  exact topoSortAux_none_of_cycle c hc steps.length steps [] hnodup hcyc2
    (fun x _ => List.not_mem_nil x)

end Orchestrator

namespace Orchestrator

/-- Claim C5: `createPlan` on a spec whose step dependency graph contains a
cycle returns `ValidationError` and leaves the store unchanged (no plan
persisted); and `createPlan` succeeds only when the step DAG is acyclic and
every target service exists in the current topology snapshot.  (Distinct
step ids are the spec's well-formedness assumption.) -/
theorem createPlan_validates_dag_and_targets (store : PlanStoreState)
    (services : ServiceID → Option ServiceDescriptor) (spec : PlanSpec)
    (newID : PlanID) (hnodup : (spec.steps.map PlanStepSpec.id).Nodup) :
    (HasCycle spec.steps →
      createPlan store services spec newID
        = (store, Except.error ErrorKind.ValidationError)) ∧
    (∀ pid, (createPlan store services spec newID).2 = Except.ok pid →
      ¬ HasCycle spec.steps ∧
        ∀ s ∈ spec.steps, ∀ t ∈ s.target_services, (services t).isSome) := by
  constructor
  · intro hcyc
    have hnone : topoSort spec.steps = none := topoSort_none_of_cycle _ hnodup hcyc
    simp [createPlan, hnone]
  · intro pid hok
    by_cases h1 : (topoSort spec.steps).isNone
    · simp [createPlan, h1] at hok
    · by_cases h2 : spec.steps.any (fun s => s.target_services.any (fun t => (services t).isNone))
      · simp only [createPlan, h1, Bool.false_eq_true, if_false, h2, if_true] at hok
        simp at hok
      · constructor
        · intro hcyc
          rw [topoSort_none_of_cycle _ hnodup hcyc] at h1
          simp at h1
        · intro s hs t ht
          rw [Bool.not_eq_true, List.any_eq_false] at h2
          have h3 := h2 s hs
          rw [Bool.not_eq_true, List.any_eq_false] at h3
          have h4 := h3 t ht
          simpa [Option.isNone_iff_eq_none, Option.isSome_iff_ne_none] using h4

/-- Witness for C5: Scenario C — `step1` and `step2` depending on each
other is rejected with `ValidationError` and nothing is persisted. -/
theorem createPlan_validates_dag_and_targets_witness :
    HasCycle [PlanStepSpec.mk "step1" [] ["step2"], PlanStepSpec.mk "step2" [] ["step1"]] ∧
    createPlan (PlanStoreState.mk []) (fun _ => none)
        (PlanSpec.mk "cyclic"
          [PlanStepSpec.mk "step1" [] ["step2"], PlanStepSpec.mk "step2" [] ["step1"]])
        "plan-1"
      = (PlanStoreState.mk [], Except.error ErrorKind.ValidationError) := by
  have hcyc : HasCycle
      [PlanStepSpec.mk "step1" [] ["step2"], PlanStepSpec.mk "step2" [] ["step1"]] :=
    ⟨["step1", "step2"], by decide, by decide⟩
  exact ⟨hcyc,
    (createPlan_validates_dag_and_targets (PlanStoreState.mk []) (fun _ => none)
      (PlanSpec.mk "cyclic"
        [PlanStepSpec.mk "step1" [] ["step2"], PlanStepSpec.mk "step2" [] ["step1"]])
      "plan-1" (by decide)).1 hcyc⟩

end Orchestrator

namespace Orchestrator

/-- Every error kind's serialized name is one of the five taxonomy names. -/
theorem kindName_mem_taxonomy (k : ErrorKind) :
    kindName k ∈ ["ValidationError", "ConflictError", "ExecutionError",
      "HealthCheckFailure", "RollbackFailure"] := by
  cases k <;> simp [kindName]

/-- An `errorResponse` body always exposes the `kind` field. -/
theorem errorResponse_kind_field (k : ErrorKind) (detail : String) :
    jsonField (errorResponse k detail) "kind" = some (Json.str (kindName k)) := rfl

/-- Claim C8: every error response returned by the four exposed endpoints
(`createPlan`, `getPlan`, `executePlan`, `abortPlan`) is JSON carrying a
machine-readable `kind` field whose value names one of `ValidationError`,
`ConflictError`, `ExecutionError`, `HealthCheckFailure`,
`RollbackFailure`. -/
theorem api_errors_carry_taxonomy_kind (store : PlanStoreState)
    (services : ServiceID → Option ServiceDescriptor) (spec : PlanSpec)
    (newID : PlanID) (st : OrchState) (pid : PlanID) :
    errorCarriesTaxonomyKind (apiCreatePlan store services spec newID) ∧
    errorCarriesTaxonomyKind (apiGetPlan st pid) ∧
    errorCarriesTaxonomyKind (apiExecutePlan st pid) ∧
    errorCarriesTaxonomyKind (apiAbortPlan st pid) ∧
    (∀ k : ErrorKind, kindName k ∈ ["ValidationError", "ConflictError",
      "ExecutionError", "HealthCheckFailure", "RollbackFailure"]) := by
  refine ⟨?_, ?_, ?_, ?_, kindName_mem_taxonomy⟩
  · unfold apiCreatePlan
    cases (createPlan store services spec newID).2 with
    | ok p => exact trivial
    | error k => exact ⟨k, rfl⟩
  · unfold apiGetPlan
    cases st.plans pid with
    | some v => exact trivial
    | none => exact ⟨ErrorKind.ValidationError, rfl⟩
  · unfold apiExecutePlan
    cases executePlan st pid with
    | accepted st2 => exact trivial
    | conflictError => exact ⟨ErrorKind.ConflictError, rfl⟩
    | notExecutable => exact ⟨ErrorKind.ValidationError, rfl⟩
  · unfold apiAbortPlan
    cases hp : st.plans pid with
    | some v =>
      obtain ⟨status, targets⟩ := v
      cases status <;> exact trivial
    | none => exact ⟨ErrorKind.ValidationError, rfl⟩

end Orchestrator
